/-
Verification of the NovOS kernel's early-boot memory subsystem.

This file gives a shallow embedding, in Lean 4, of the parts of the NovOS
kernel that the specification's testable properties talk about:

* the SBI error-code mapping (`crates/sbi/src/lib.rs`),
* the physical-memory offset and `phys2virt` (`crates/kernel/src/memmap.rs`),
* the buddy allocator (`crates/kernel/src/allocator/buddy.rs`),
* the generic multi-level page table (`crates/kernel/src/page.rs` and
  `crates/kernel/src/page/types.rs`).

Machine integers (`usize`, `u64`, `u8`) are embedded as `Nat` with explicit
`% 2 ^ 64` (resp. `% 2 ^ 8`) wherever the Rust code can wrap or truncate.
Code paths that panic in Rust (array indexing out of bounds, `unwrap` of a
null pointer, `unreachable!`) are embedded as `Except`-style error values so
that theorems can talk about them.  Heap memory holding page tables and the
intrusive free lists is made explicit: page tables live in a list of
512-entry tables addressed by `(index + 1) * 4096` (each allocated table is
page aligned and non-null, as guaranteed by `pmem::zalloc_order`), and each
buddy free list is the list of block addresses linked through the blocks
themselves.
-/
import Mathlib

set_option maxHeartbeats 1600000

namespace NovOS

/-! ## Bit-arithmetic helpers

Arithmetic characterisations of the shift/mask operations used by the
kernel, so that later proofs can reason with `/`, `%` and `omega`. -/

/-- The `usize` word size. -/
def W : Nat := 2 ^ 64

/-- Bitwise not on `usize` (`!x` in Rust). -/
def usizeNot (x : Nat) : Nat := (2 ^ 64 - 1) ^^^ x

theorem shiftRight_eq_div (x k : Nat) : x >>> k = x / 2 ^ k :=
  Nat.shiftRight_eq_div_pow x k

theorem shiftLeft_eq_mul (x k : Nat) : x <<< k = x * 2 ^ k :=
  Nat.shiftLeft_eq x k

theorem and_mask_eq_mod (x k : Nat) : x &&& (2 ^ k - 1) = x % 2 ^ k :=
  Nat.and_pow_two_sub_one_eq_mod x k

/-- Bitwise or is addition when the low bits of the left operand are clear. -/
theorem lor_eq_add {a b : Nat} (k : Nat) (ha : a % 2 ^ k = 0) (hb : b < 2 ^ k) :
    a ||| b = a + b := by
  obtain ⟨c, rfl⟩ : 2 ^ k ∣ a := Nat.dvd_of_mod_eq_zero ha
  exact (Nat.mul_add_lt_is_or hb c).symm

end NovOS

/-! ## SBI error codes (`crates/sbi/src/lib.rs`) -/

namespace NovOS.Sbi

/-- `sbi::Error`: standard SBI errors, read back from register `a0`. -/
inductive Error where
  | Failed
  | NotSupported
  | InvalidParam
  | Denied
  | InvalidAddress
  | AlreadyAvailable
  | Unknown (code : Int)
  deriving DecidableEq

/-- `Error::from_code`: convert an error code (an `isize`) into an `Error`. -/
def Error.from_code (code : Int) : Error :=
  if code = -1 then .Failed
  else if code = -2 then .NotSupported
  else if code = -3 then .InvalidParam
  else if code = -4 then .Denied
  else if code = -5 then .InvalidAddress
  else if code = -6 then .AlreadyAvailable
  else .Unknown code

/-- `Error::code`: convert an `Error` into its specific error code. -/
def Error.code : Error → Int
  | .Failed => -1
  | .NotSupported => -2
  | .InvalidParam => -3
  | .Denied => -4
  | .InvalidAddress => -5
  | .AlreadyAvailable => -6
  | .Unknown code => code

end NovOS.Sbi

/-! ## Physical-memory offset (`crates/kernel/src/memmap.rs`)

The atomic `PHYSICAL_MEMORY_OFFSET` is embedded as explicitly passed
state; `set_phymem_offset` replaces it, `phys2virt` reads it.  Addition on
`usize` wraps in release builds, hence the `% 2 ^ 64`. -/

namespace NovOS.Memmap

/-- Initial value of `PHYSICAL_MEMORY_OFFSET` (`AtomicUsize::new(0)`). -/
def PHYSICAL_MEMORY_OFFSET_INIT : Nat := 0

/-- `set_phymem_offset`: store a new offset (the old state is discarded). -/
def set_phymem_offset (offset _old : Nat) : Nat := offset % W

/-- `phys2virt`: add the current offset to a physical address. -/
def phys2virt (state paddr : Nat) : Nat := (paddr + state) % W

end NovOS.Memmap

namespace NovOS

/-! ## Claim C9: SBI error-code round trip -/

/-- **C9.** `Error::from_code` maps the codes `-1 .. -6` to
`Failed, NotSupported, InvalidParam, Denied, InvalidAddress,
AlreadyAvailable` respectively and every other code `c` to `Unknown c`,
and `code` is a left inverse: `Error::from_code(c).code() == c` for
every `c`. -/
theorem sbi_from_code_code_roundtrip :
    (Sbi.Error.from_code (-1) = .Failed ∧
     Sbi.Error.from_code (-2) = .NotSupported ∧
     Sbi.Error.from_code (-3) = .InvalidParam ∧
     Sbi.Error.from_code (-4) = .Denied ∧
     Sbi.Error.from_code (-5) = .InvalidAddress ∧
     Sbi.Error.from_code (-6) = .AlreadyAvailable) ∧
    (∀ c : Int, c ≠ -1 → c ≠ -2 → c ≠ -3 → c ≠ -4 → c ≠ -5 → c ≠ -6 →
      Sbi.Error.from_code c = .Unknown c) ∧
    (∀ c : Int, (Sbi.Error.from_code c).code = c) := by
  refine ⟨by decide, ?_, ?_⟩
  · intro c h1 h2 h3 h4 h5 h6
    simp [Sbi.Error.from_code, h1, h2, h3, h4, h5, h6]
  · intro c
    unfold Sbi.Error.from_code
    split_ifs with h1 h2 h3 h4 h5 h6 <;>
      simp [Sbi.Error.code, *]

/-- Witness for C9 at concrete codes. -/
theorem sbi_from_code_code_roundtrip_witness :
    Sbi.Error.from_code 17 = .Unknown 17 ∧
    (Sbi.Error.from_code (-3)).code = -3 :=
  ⟨sbi_from_code_code_roundtrip.2.1 17 (by decide) (by decide) (by decide)
      (by decide) (by decide) (by decide),
   sbi_from_code_code_roundtrip.2.2 (-3)⟩

/-! ## Claim C8: `phys2virt` before and after publication -/

/-- **C8.** For every physical address `p` (such that the additions do not
overflow), `phys2virt p` equals `p` while the physical-memory offset still
has its initial value `0`, and equals `p + off` once `set_phymem_offset off`
has been called. -/
theorem phys2virt_offset (p off state : Nat)
    (hp : p < W) (hsum : p + off < W) :
    Memmap.phys2virt Memmap.PHYSICAL_MEMORY_OFFSET_INIT p = p ∧
    Memmap.phys2virt (Memmap.set_phymem_offset off state) p = p + off := by
  have hoff : off < W := by omega
  constructor
  · simp [Memmap.phys2virt, Memmap.PHYSICAL_MEMORY_OFFSET_INIT,
      Nat.mod_eq_of_lt hp]
  · simp [Memmap.phys2virt, Memmap.set_phymem_offset, Nat.mod_eq_of_lt hoff,
      Nat.mod_eq_of_lt hsum]

/-- Witness for C8 at a concrete address and offset. -/
theorem phys2virt_offset_witness :
    Memmap.phys2virt Memmap.PHYSICAL_MEMORY_OFFSET_INIT 0x80200000 = 0x80200000 ∧
    Memmap.phys2virt (Memmap.set_phymem_offset 0x4000000000 7) 0x80200000 =
      0x80200000 + 0x4000000000 :=
  phys2virt_offset 0x80200000 0x4000000000 7 (by decide) (by decide)

end NovOS

/-! ## Buddy allocator (`crates/kernel/src/allocator/buddy.rs`)

The per-order intrusive singly-linked free lists (whose nodes live in the
free blocks themselves) are embedded as `List Nat` of block addresses:
`order_push` conses onto the head, `order_pop` pops the head and
`order_remove` removes the first occurrence, exactly as the pointer walk
in the source does.  Statistics are `usize` counters with wrapping
arithmetic.  Rust panics (the `orders[order]` bound check and
`NonNull::new(..).unwrap()`) become `BuddyPanic` values. -/

namespace NovOS.Buddy

/-- `MAX_ORDER`: orders `0..MAX_ORDER` are available. -/
def MAX_ORDER : Nat := 12

/-- `PAGE_SIZE` / `MIN_ORDER_SIZE`. -/
def MIN_ORDER_SIZE : Nat := 4096

/-- `size_for_order`: size in bytes of the given order. -/
def size_for_order (order : Nat) : Nat := (1 <<< order) * MIN_ORDER_SIZE

/-- `align_up` (from `allocator.rs`): `(addr + align - 1) & !(align - 1)`,
with the wrapping `usize` addition made explicit. -/
def align_up (addr align : Nat) : Nat :=
  ((addr + align - 1) % W) &&& usizeNot (align - 1)

/-- `allocator::Error`. -/
inductive Error where
  | RegionTooSmall
  | InvalidRegion
  | OrderTooLarge
  | NoMemoryAvailable
  | AllocateZeroPages
  | NoSlabForLayout
  | NullPointer
  deriving DecidableEq

/-- Rust panics reachable in the buddy code. -/
inductive BuddyPanic where
  /-- `self.orders[order]` with `order ≥ MAX_ORDER`. -/
  | indexOutOfBounds
  /-- `NonNull::new(..).unwrap()` on a null pointer. -/
  | nullUnwrap
  deriving DecidableEq

/-- `AllocStats` (the `name` field is omitted; it is only used for
pretty-printing). -/
structure AllocStats where
  allocated : Nat
  free : Nat
  total : Nat

/-- `BuddyAllocator`: per-order free lists plus statistics. -/
structure BuddyAllocator where
  orders : Fin MAX_ORDER → List Nat
  stats : AllocStats

/-- Result of a buddy operation: value or error, in both cases together
with the allocator state left behind (`&mut self` keeps its mutations even
on the error paths). -/
inductive BuddyRes (α : Type) where
  | ok (val : α) (b : BuddyAllocator)
  | err (e : Error) (b : BuddyAllocator)

/-- The allocator state a finished operation leaves behind. -/
def BuddyRes.state : BuddyRes α → BuddyAllocator
  | .ok _ b => b
  | .err _ b => b

/-- `BuddyAllocator::new`. -/
def BuddyAllocator.new : BuddyAllocator :=
  { orders := fun _ => [], stats := { allocated := 0, free := 0, total := 0 } }

/-- `buddy_of`: address of the other buddy, `block XOR size_for_order order`,
with the `NonNull` failure on a zero result. -/
def buddy_of (block order : Nat) : Except Error Nat :=
  if block ^^^ size_for_order order = 0 then .error .NullPointer
  else .ok (block ^^^ size_for_order order)

/-- `order_push` (the index is already checked by the caller). -/
def order_push (b : BuddyAllocator) (order : Fin MAX_ORDER) (ptr : Nat) :
    BuddyAllocator :=
  { b with orders := Function.update b.orders order (ptr :: b.orders order) }

/-- `order_pop`. -/
def order_pop (b : BuddyAllocator) (order : Fin MAX_ORDER) :
    Option (Nat × BuddyAllocator) :=
  match h : b.orders order with
  | [] => none
  | head :: rest =>
      some (head, { b with orders := Function.update b.orders order rest })

/-- Remove the first occurrence of `y` from a list, reporting success. -/
def removeFirst : List Nat → Nat → Bool × List Nat
  | [], _ => (false, [])
  | x :: xs, y =>
      if x = y then (true, xs)
      else
        let r := removeFirst xs y
        (r.1, x :: r.2)

/-- `order_remove` (index already checked by the caller). -/
def order_remove (b : BuddyAllocator) (order : Fin MAX_ORDER) (to_remove : Nat) :
    Bool × BuddyAllocator :=
  let r := removeFirst (b.orders order) to_remove
  (r.1, { b with orders := Function.update b.orders order r.2 })

/-- `alloc_stats`: `free -= size; allocated += size` (wrapping). -/
def alloc_stats (b : BuddyAllocator) (size : Nat) : BuddyAllocator :=
  { b with stats := { b.stats with
      free := (b.stats.free + (W - size % W)) % W,
      allocated := (b.stats.allocated + size) % W } }

/-- `dealloc_stats`: `free += size; allocated -= size` (wrapping). -/
def dealloc_stats (b : BuddyAllocator) (size : Nat) : BuddyAllocator :=
  { b with stats := { b.stats with
      free := (b.stats.free + size) % W,
      allocated := (b.stats.allocated + (W - size % W)) % W } }

/-- Statistics update at the end of `add_single_region`:
`total += size; free += size` (wrapping). -/
def add_stats (b : BuddyAllocator) (size : Nat) : BuddyAllocator :=
  { b with stats := { b.stats with
      total := (b.stats.total + size) % W,
      free := (b.stats.free + size) % W } }

/-- The order-growing loop of `add_single_region`
(`while order < MAX_ORDER - 1 { .. }`); `fuel` is `MAX_ORDER - 1 - order`,
so the loop starts with `fuel = MAX_ORDER - 1`. -/
def grow_order (start end_ : Nat) : Nat → Nat → Except BuddyPanic (Except Error Nat)
  | _, 0 => .ok (.ok (MAX_ORDER - 1))
  | order, fuel + 1 =>
    -- `start_addr.checked_add(size)` guarded by `num <= end`
    if start + size_for_order (order + 1) < W ∧
        start + size_for_order (order + 1) ≤ end_ then
      -- `NonNull::new(start as *mut _).unwrap()`
      if start = 0 then .error .nullUnwrap
      else
        match buddy_of start (order + 1) with
        | .error e => .ok (.error e)
        | .ok buddy =>
            if start + size_for_order (order + 1) ≤ end_ ∧
                (start ≤ buddy ∧ buddy ≤ end_) then
              grow_order start end_ (order + 1) fuel
            else .ok (.ok order)
    else .ok (.ok order)

/-- `add_single_region`: pick the order, push the block, update stats;
returns the inserted order. -/
def add_single_region (b : BuddyAllocator) (start end_ : Nat) :
    Except BuddyPanic (BuddyRes Nat) :=
  match grow_order start end_ 0 (MAX_ORDER - 1) with
  | .error p => .error p
  | .ok (.error e) => .ok (.err e b)
  | .ok (.ok order) =>
      -- `NonNull::new(start).unwrap()`
      if start = 0 then .error .nullUnwrap
      else if h : order < MAX_ORDER then
        let b1 := order_push b ⟨order, h⟩ start
        .ok (.ok order (add_stats b1 (size_for_order order)))
      else .error .indexOutOfBounds

/-- The while loop of `add_region`
(`while (end - start).saturating_sub(..) >= MIN_ORDER_SIZE`), written with
structural fuel so it evaluates in the kernel.  Each iteration of the Rust
loop advances `start` by at least `MIN_ORDER_SIZE` while the guard requires
`start + MIN_ORDER_SIZE ≤ end`, so the loop runs at most
`(end - start) / MIN_ORDER_SIZE` times; `add_region` supplies more fuel
than that, making the fuel-exhausted branch dead
(`add_region_loop_fuel_mono` below proves the result does not depend on the
fuel as long as it is sufficient). -/
def add_region_loop (b : BuddyAllocator) (start end_ total : Nat) :
    Nat → Except BuddyPanic (BuddyRes Nat)
  | 0 => .ok (.ok total b)
  | fuel + 1 =>
    if MIN_ORDER_SIZE ≤ end_ - start then
      match add_single_region b start end_ with
      | .error p => .error p
      | .ok (.err e b1) => .ok (.err e b1)
      | .ok (.ok order b1) =>
          add_region_loop b1 (start + size_for_order order) end_
            (total + size_for_order order) fuel
    else .ok (.ok total b)

/-- `add_region`: align the start, check the region size (saturating
subtraction), check `end < start`, then greedily insert blocks. -/
def add_region (b : BuddyAllocator) (start end_ : Nat) :
    Except BuddyPanic (BuddyRes Nat) :=
  if end_ - align_up start MIN_ORDER_SIZE < MIN_ORDER_SIZE then
    .ok (.err .RegionTooSmall b)
  else if end_ < align_up start MIN_ORDER_SIZE then .ok (.err .InvalidRegion b)
  else add_region_loop b (align_up start MIN_ORDER_SIZE) end_ 0
    (end_ / MIN_ORDER_SIZE + 1)

/-- Recursion of `allocate`, with structural gas; `allocate` enters with
`gas = MAX_ORDER - order`, and the recursion keeps that equation, so gas 0
implies `MAX_ORDER ≤ order` and the gas-0 branch coincides with the
`OrderTooLarge` branch the Rust code takes there. -/
def allocateAux (b : BuddyAllocator) : Nat → Nat → Except BuddyPanic (BuddyRes Nat)
  | 0, _order => .ok (.err .OrderTooLarge b)
  | gas + 1, order =>
    if horder : MAX_ORDER ≤ order then .ok (.err .OrderTooLarge b)
    else
      match order_pop b ⟨order, by omega⟩ with
      | some (block, b1) =>
          -- fast path: stats first, then the `NonNull` check
          let b2 := alloc_stats b1 (size_for_order order)
          if block = 0 then .ok (.err .NullPointer b2) else .ok (.ok block b2)
      | none =>
          -- slow path
          match allocateAux b gas (order + 1) with
          | .error p => .error p
          | .ok (.err _ b1) => .ok (.err .NoMemoryAvailable b1)
          | .ok (.ok block b1) =>
              match buddy_of block order with
              | .error e => .ok (.err e b1)
              | .ok buddy =>
                  let b2 := order_push b1 ⟨order, by omega⟩ buddy
                  .ok (.ok block (dealloc_stats b2 (size_for_order order)))

/-- `allocate`: pop from the order's free list, or split a block of the
next order. -/
def allocate (b : BuddyAllocator) (order : Nat) :
    Except BuddyPanic (BuddyRes Nat) :=
  allocateAux b (MAX_ORDER - order) order

/-- Recursion of `deallocate`, with structural gas; `deallocate` enters
with `gas = MAX_ORDER - order` and the recursion keeps that equation, so
gas 0 implies `MAX_ORDER ≤ order`, where the Rust code computes
`buddy_of` (possibly failing with `NullPointer`) and otherwise panics on
the out-of-bounds `self.orders[order]` inside `order_remove` — the
recursion is not capped below `MAX_ORDER` by the source. -/
def deallocateAux (b : BuddyAllocator) : Nat → Nat → Nat → Except BuddyPanic (BuddyRes Unit)
  | 0, block, order =>
      match buddy_of block order with
      | .error e => .ok (.err e b)
      | .ok _ => .error .indexOutOfBounds
  | gas + 1, block, order =>
      match buddy_of block order with
      | .error e => .ok (.err e b)
      | .ok buddy_addr =>
          if h : order < MAX_ORDER then
            if (order_remove b ⟨order, h⟩ buddy_addr).1 then
              deallocateAux
                (alloc_stats (order_remove b ⟨order, h⟩ buddy_addr).2 (size_for_order order))
                gas (min buddy_addr block) (order + 1)
            else
              .ok (.ok () (dealloc_stats
                (order_push (order_remove b ⟨order, h⟩ buddy_addr).2 ⟨order, h⟩ block)
                (size_for_order order)))
          else .error .indexOutOfBounds

/-- `deallocate`: eagerly merge with the free buddy, recursing upwards. -/
def deallocate (b : BuddyAllocator) (block order : Nat) :
    Except BuddyPanic (BuddyRes Unit) :=
  deallocateAux b (MAX_ORDER - order) block order

theorem size_for_order_pos (order : Nat) : 0 < size_for_order order := by
  have h2 : 0 < (2 : Nat) ^ order := Nat.two_pow_pos order
  simp only [size_for_order, MIN_ORDER_SIZE, Nat.shiftLeft_eq, Nat.one_mul]
  omega

theorem min_le_size_for_order (order : Nat) : MIN_ORDER_SIZE ≤ size_for_order order := by
  have h2 : 1 ≤ (2 : Nat) ^ order := Nat.one_le_two_pow
  simp only [size_for_order, MIN_ORDER_SIZE, Nat.shiftLeft_eq, Nat.one_mul]
  nlinarith

/-- The result of the `add_region` loop does not depend on the fuel, as
long as the fuel exceeds the maximal possible number of iterations
`(end - start) / MIN_ORDER_SIZE`. -/
theorem add_region_loop_fuel_mono :
    ∀ (f1 f2 : Nat) (b : BuddyAllocator) (start end_ total : Nat),
      (end_ - start) / MIN_ORDER_SIZE < f1 → (end_ - start) / MIN_ORDER_SIZE < f2 →
      add_region_loop b start end_ total f1 = add_region_loop b start end_ total f2 := by
  intro f1
  induction f1 with
  | zero =>
    intro f2 b start end_ total h1 h2
    simp only [MIN_ORDER_SIZE] at h1
    omega
  | succ f1 ih =>
    intro f2 b start end_ total h1 h2
    match f2, h2 with
    | f2 + 1, h2 =>
      show add_region_loop b start end_ total (f1 + 1) =
        add_region_loop b start end_ total (f2 + 1)
      unfold add_region_loop
      by_cases hg : MIN_ORDER_SIZE ≤ end_ - start
      · rw [if_pos hg, if_pos hg]
        cases hsr : add_single_region b start end_ with
        | error p => rfl
        | ok r =>
          cases r with
          | err e b1 => rfl
          | ok order b1 =>
            have hsz := min_le_size_for_order order
            apply ih
            · simp only [MIN_ORDER_SIZE] at *; omega
            · simp only [MIN_ORDER_SIZE] at *; omega
      · rw [if_neg hg, if_neg hg]

end NovOS.Buddy

namespace NovOS.Buddy

/-! ### The statistics invariant (claim C4)

Every statistics mutation in the buddy allocator changes `free + allocated`
and `total` by the same amount modulo `2 ^ 64`, so the invariant
`free + allocated = total` (in the wrapping `usize` arithmetic the counters
use) is preserved by every call, including the error paths that leave a
partially mutated allocator behind. -/

/-- The statistics invariant: counters are `usize` values and
`free + allocated = total` modulo the word size. -/
def statsInv (b : BuddyAllocator) : Prop :=
  b.stats.free < W ∧ b.stats.allocated < W ∧ b.stats.total < W ∧
  (b.stats.free + b.stats.allocated) % W = b.stats.total

theorem statsInv_alloc_stats {b : BuddyAllocator} (h : statsInv b) (s : Nat) :
    statsInv (alloc_stats b s) := by
  simp only [statsInv, alloc_stats, W] at *
  omega

theorem statsInv_dealloc_stats {b : BuddyAllocator} (h : statsInv b) (s : Nat) :
    statsInv (dealloc_stats b s) := by
  simp only [statsInv, dealloc_stats, W] at *
  omega

theorem statsInv_add_stats {b : BuddyAllocator} (h : statsInv b) (s : Nat) :
    statsInv (add_stats b s) := by
  simp only [statsInv, add_stats, W] at *
  omega

theorem statsInv_order_push {b : BuddyAllocator} (h : statsInv b) (o : Fin MAX_ORDER) (p : Nat) :
    statsInv (order_push b o p) := h

theorem statsInv_order_remove {b : BuddyAllocator} (h : statsInv b) (o : Fin MAX_ORDER) (p : Nat) :
    statsInv (order_remove b o p).2 := h

theorem statsInv_order_pop {b b' : BuddyAllocator} (h : statsInv b) {o : Fin MAX_ORDER} {p : Nat}
    (hp : order_pop b o = some (p, b')) : statsInv b' := by
  unfold order_pop at hp
  split at hp
  · exact absurd hp (by simp)
  · simp only [Option.some.injEq, Prod.mk.injEq] at hp
    obtain ⟨-, rfl⟩ := hp
    exact h

theorem add_single_region_statsInv {b : BuddyAllocator} {s e : Nat} {r : BuddyRes Nat}
    (h : statsInv b) (hr : add_single_region b s e = .ok r) : statsInv r.state := by
  unfold add_single_region at hr
  split at hr
  · exact absurd hr (by simp)
  · simp only [Except.ok.injEq] at hr; subst hr; exact h
  · split at hr
    · exact absurd hr (by simp)
    · split at hr
      · simp only [Except.ok.injEq] at hr; subst hr
        exact statsInv_add_stats (statsInv_order_push h _ _) _
      · exact absurd hr (by simp)

theorem add_region_loop_statsInv :
    ∀ (fuel : Nat) (b : BuddyAllocator) (start end_ total : Nat) {r : BuddyRes Nat},
      statsInv b → add_region_loop b start end_ total fuel = .ok r → statsInv r.state := by
  intro fuel
  induction fuel with
  | zero =>
    intro b start end_ total r h hr
    unfold add_region_loop at hr
    simp only [Except.ok.injEq] at hr; subst hr; exact h
  | succ fuel ih =>
    intro b start end_ total r h hr
    unfold add_region_loop at hr
    split at hr
    · split at hr
      · exact absurd hr (by simp)
      · simp only [Except.ok.injEq] at hr; subst hr
        next hsr => exact add_single_region_statsInv h hsr
      · next hsr => exact ih _ _ _ _ (add_single_region_statsInv h hsr) hr
    · simp only [Except.ok.injEq] at hr; subst hr; exact h

theorem add_region_statsInv {b : BuddyAllocator} {s e : Nat} {r : BuddyRes Nat}
    (h : statsInv b) (hr : add_region b s e = .ok r) : statsInv r.state := by
  simp only [add_region] at hr
  split at hr
  · simp only [Except.ok.injEq] at hr; subst hr; exact h
  · split at hr
    · simp only [Except.ok.injEq] at hr; subst hr; exact h
    · exact add_region_loop_statsInv _ _ _ _ _ h hr

theorem allocateAux_statsInv :
    ∀ (gas order : Nat) (b : BuddyAllocator) {r : BuddyRes Nat},
      statsInv b → allocateAux b gas order = .ok r → statsInv r.state := by
  intro gas
  induction gas with
  | zero =>
    intro order b r h hr
    unfold allocateAux at hr
    simp only [Except.ok.injEq] at hr; subst hr; exact h
  | succ gas ih =>
    intro order b r h hr
    unfold allocateAux at hr
    split at hr
    · simp only [Except.ok.injEq] at hr; subst hr; exact h
    · split at hr
      · -- fast path
        next block b1 hpop =>
        split at hr <;>
          (simp only [Except.ok.injEq] at hr; subst hr;
           exact statsInv_alloc_stats (statsInv_order_pop h hpop) _)
      · -- slow path
        split at hr
        · exact absurd hr (by simp)
        · next e b1 hrec =>
          simp only [Except.ok.injEq] at hr; subst hr
          have := ih (order + 1) b (r := .err e b1) h hrec
          exact this
        · next block b1 hrec =>
          have hb1 : statsInv b1 := ih (order + 1) b (r := .ok block b1) h hrec
          split at hr
          · simp only [Except.ok.injEq] at hr; subst hr
            exact hb1
          · simp only [Except.ok.injEq] at hr; subst hr
            exact statsInv_dealloc_stats (statsInv_order_push hb1 _ _) _

theorem allocate_statsInv {b : BuddyAllocator} {order : Nat} {r : BuddyRes Nat}
    (h : statsInv b) (hr : allocate b order = .ok r) : statsInv r.state :=
  allocateAux_statsInv _ order b h hr

theorem deallocateAux_statsInv :
    ∀ (gas block order : Nat) (b : BuddyAllocator) {r : BuddyRes Unit},
      statsInv b → deallocateAux b gas block order = .ok r → statsInv r.state := by
  intro gas
  induction gas with
  | zero =>
    intro block order b r h hr
    unfold deallocateAux at hr
    split at hr
    · simp only [Except.ok.injEq] at hr; subst hr; exact h
    · exact absurd hr (by simp)
  | succ gas ih =>
    intro block order b r h hr
    unfold deallocateAux at hr
    split at hr
    · simp only [Except.ok.injEq] at hr; subst hr; exact h
    · split at hr
      · split at hr
        · exact ih _ (order + 1) _
            (statsInv_alloc_stats (statsInv_order_remove h _ _) _) hr
        · simp only [Except.ok.injEq] at hr; subst hr
          exact statsInv_dealloc_stats (statsInv_order_push (statsInv_order_remove h _ _) _ _) _
      · exact absurd hr (by simp)

theorem deallocate_statsInv {b : BuddyAllocator} {block order : Nat} {r : BuddyRes Unit}
    (h : statsInv b) (hr : deallocate b block order = .ok r) : statsInv r.state :=
  deallocateAux_statsInv _ block order b h hr

/-- States reachable from the empty allocator by completed (non-panicking)
`add_region`, `allocate` and `deallocate` calls; a completed call leaves its
state behind even when it returns an error. -/
inductive Reachable : BuddyAllocator → Prop where
  | new : Reachable BuddyAllocator.new
  | add {b : BuddyAllocator} {s e : Nat} {r : BuddyRes Nat} :
      Reachable b → add_region b s e = .ok r → Reachable r.state
  | alloc {b : BuddyAllocator} {o : Nat} {r : BuddyRes Nat} :
      Reachable b → allocate b o = .ok r → Reachable r.state
  | dealloc {b : BuddyAllocator} {p o : Nat} {r : BuddyRes Unit} :
      Reachable b → deallocate b p o = .ok r → Reachable r.state

theorem statsInv_reachable {b : BuddyAllocator} (h : Reachable b) : statsInv b := by
  induction h with
  | new => refine ⟨by decide, by decide, by decide, by decide⟩
  | add _ hop ih => exact add_region_statsInv ih hop
  | alloc _ hop ih => exact allocate_statsInv ih hop
  | dealloc _ hop ih => exact deallocate_statsInv ih hop

end NovOS.Buddy

namespace NovOS.Buddy

/-! ### `add_region` error analysis (claim C10) -/

theorem grow_order_no_invalid {start end_ order fuel : Nat} {e : Error}
    (h : grow_order start end_ order fuel = .ok (.error e)) : e = .NullPointer := by
  induction fuel generalizing order with
  | zero => exact absurd h (by simp [grow_order])
  | succ fuel ih =>
    unfold grow_order at h
    split at h
    · split at h
      · exact absurd h (by simp)
      · split at h
        · next heq =>
          simp only [Except.ok.injEq, Except.error.injEq] at h
          subst h
          unfold buddy_of at heq
          split at heq
          · simp only [Except.error.injEq] at heq; exact heq.symm
          · exact absurd heq (by simp)

        · split at h
          · exact ih h
          · exact absurd h (by simp)
    · exact absurd h (by simp)

theorem add_single_region_err {b b1 : BuddyAllocator} {start end_ : Nat} {e : Error}
    (h : add_single_region b start end_ = .ok (.err e b1)) :
    e = .NullPointer ∧ b1 = b := by
  unfold add_single_region at h
  split at h
  · exact absurd h (by simp)
  · next er heq =>
    simp only [Except.ok.injEq, BuddyRes.err.injEq] at h
    obtain ⟨rfl, rfl⟩ := h
    exact ⟨grow_order_no_invalid heq, rfl⟩
  · split at h
    · exact absurd h (by simp)
    · split at h
      · exact absurd h (by simp)
      · exact absurd h (by simp)

theorem add_region_loop_err {fuel : Nat} :
    ∀ {b b1 : BuddyAllocator} {start end_ total : Nat} {e : Error},
      add_region_loop b start end_ total fuel = .ok (.err e b1) → e = .NullPointer := by
  induction fuel with
  | zero =>
    intro b b1 start end_ total e h
    exact absurd h (by simp [add_region_loop])
  | succ fuel ih =>
    intro b b1 start end_ total e h
    unfold add_region_loop at h
    split at h
    · split at h
      · exact absurd h (by simp)
      · next heq =>
        simp only [Except.ok.injEq, BuddyRes.err.injEq] at h
        obtain ⟨rfl, rfl⟩ := h
        exact (add_single_region_err heq).1
      · exact ih h
    · exact absurd h (by simp)

/-- `x & !4095` clears the low twelve bits. -/
theorem and_usizeNot_4095 (x : Nat) (hx : x < 2 ^ 64) :
    x &&& usizeNot 4095 = (x >>> 12) <<< 12 := by
  have hmask : usizeNot 4095 = (2 ^ 52 - 1) <<< 12 := by decide
  rw [hmask]
  apply Nat.eq_of_testBit_eq
  intro i
  rw [Nat.testBit_and, Nat.testBit_shiftLeft, Nat.testBit_shiftLeft,
    Nat.testBit_shiftRight]
  rcases Nat.lt_or_ge i 12 with h12 | h12
  · simp [Nat.not_le.mpr h12]
  · rw [Nat.add_sub_cancel' h12]
    rcases Nat.lt_or_ge i 64 with h64 | h64
    · have ht : Nat.testBit 4503599627370495 (i - 12) = true := by
        have h52 : (4503599627370495 : Nat) = 2 ^ 52 - 1 := by norm_num
        rw [h52, Nat.testBit_two_pow_sub_one]
        exact decide_eq_true (by omega)
      simp [h12, ht, Bool.and_comm]
    · have hxi : Nat.testBit x i = false :=
        Nat.testBit_lt_two_pow
          (lt_of_lt_of_le hx (Nat.pow_le_pow_right (by omega) h64))
      simp [hxi]

/-- When the addition inside `align_up` does not wrap, the aligned start
is `start` rounded up to the next multiple of 4096. -/
theorem align_up_4096 (s : Nat) (h : s + 4095 < W) :
    align_up s MIN_ORDER_SIZE = (s + 4095) / 4096 * 4096 := by
  have hW : W = 2 ^ 64 := rfl
  unfold align_up MIN_ORDER_SIZE
  rw [Nat.mod_eq_of_lt (by omega)]
  show (s + 4095) &&& usizeNot 4095 = _
  rw [and_usizeNot_4095 (s + 4095) (by omega), shiftRight_eq_div, shiftLeft_eq_mul]
  norm_num

theorem align_up_4096_ge (s : Nat) (h : s + 4095 < W) :
    s ≤ align_up s MIN_ORDER_SIZE := by
  rw [align_up_4096 s h]
  omega

end NovOS.Buddy

namespace NovOS

/-! ## Claim C10: `add_region` never returns `InvalidRegion` -/

/-- **C10.** `BuddyAllocator::add_region` never returns
`Error::InvalidRegion`: the region-size check uses
`(end - start).saturating_sub`, which yields `0 < MIN_ORDER_SIZE` whenever
`end ≤ start`, so the `end < start` branch is unreachable for every input;
and (provided the `align_up` addition does not wrap, i.e.
`start + 4095 < 2 ^ 64`) every call with `end ≤ start` returns
`RegionTooSmall` without adding memory. -/
theorem add_region_never_invalid_region :
    (∀ (b b' : Buddy.BuddyAllocator) (s e : Nat),
      Buddy.add_region b s e ≠ .ok (.err .InvalidRegion b')) ∧
    (∀ (b : Buddy.BuddyAllocator) (s e : Nat), e ≤ s → s + 4095 < W →
      Buddy.add_region b s e = .ok (.err .RegionTooSmall b)) := by
  constructor
  · intro b b' s e h
    unfold Buddy.add_region at h
    split at h
    · simp at h
    · next h1 =>
      split at h
      · next h2 =>
        -- the guard of this branch is contradictory: `end < aligned start`
        -- forces the saturating size check to have fired first
        simp only [not_lt, Buddy.MIN_ORDER_SIZE] at h1 h2
        omega
      · -- the loop can only fail with `NullPointer`
        exact absurd (Buddy.add_region_loop_err h) (by simp)
  · intro b s e he hnw
    have hge := Buddy.align_up_4096_ge s hnw
    unfold Buddy.add_region
    rw [if_pos]
    simp only [Buddy.MIN_ORDER_SIZE] at hge ⊢
    omega

/-- Witness for C10: a concrete backwards region is rejected with
`RegionTooSmall`. -/
theorem add_region_never_invalid_region_witness :
    Buddy.add_region Buddy.BuddyAllocator.new 0x2000 0x1000 =
      .ok (.err .RegionTooSmall Buddy.BuddyAllocator.new) :=
  add_region_never_invalid_region.2 Buddy.BuddyAllocator.new 0x2000 0x1000
    (by decide) (by decide)

/-- Counterexample input for the universal reading of C10: when `start` is
within 4095 of `2 ^ 64`, the wrapping addition inside `align_up` rounds
`start` to `0`, the size check passes, and the call panics unwrapping
`NonNull::new(0)` instead of returning `RegionTooSmall`, although
`end = 0x5000` is far below `start = 2 ^ 64 - 1`. -/
theorem add_region_align_wrap_panics :
    Buddy.add_region Buddy.BuddyAllocator.new (2 ^ 64 - 1) 0x5000 =
      .error .nullUnwrap ∧ (0x5000 : Nat) ≤ 2 ^ 64 - 1 :=
  ⟨by rfl, by decide⟩

/-! ## Claim C4: `free + allocated = total` -/

/-- **C4.** For every allocator state reachable from the empty allocator
by completed `add_region`, `allocate` and `deallocate` calls, the
statistics satisfy `free + allocated = total` in the wrapping `usize`
arithmetic the counters are maintained with. -/
theorem buddy_stats_invariant (b : Buddy.BuddyAllocator) (h : Buddy.Reachable b) :
    (b.stats.free + b.stats.allocated) % W = b.stats.total :=
  (Buddy.statsInv_reachable h).2.2.2

/-- Witness for C4 at the empty allocator. -/
theorem buddy_stats_invariant_witness :
    (Buddy.BuddyAllocator.new.stats.free +
      Buddy.BuddyAllocator.new.stats.allocated) % W =
      Buddy.BuddyAllocator.new.stats.total :=
  buddy_stats_invariant Buddy.BuddyAllocator.new Buddy.Reachable.new

/-! ## Claim C3: buddy alignment (failing evaluation) -/

/-- Add the page-aligned region `[0x5000, 0x9000)` to an empty allocator,
then allocate at order 1.  In the source, `add_single_region` grows the
order while `start <= start ^ size_for_order(order + 1)` — an incorrect
alignment test — so the block at `0x5000` is inserted at order 1 even
though it is only 4096-aligned. -/
def c3_alloc_result : Option Nat :=
  match Buddy.add_region Buddy.BuddyAllocator.new 0x5000 0x9000 with
  | .ok (.ok _ b) =>
      match Buddy.allocate b 1 with
      | .ok (.ok p _) => some p
      | _ => none
  | _ => none

/-- **C3 (failing evaluation).** After `add_region(0x5000, 0x9000)`,
`allocate(1)` succeeds and returns `p = 0x5000`, which is not aligned to
`2 ^ 1 * 4096 = 8192`: the code violates the buddy-alignment claim, and in
particular `add_region` inserted a block that is not naturally aligned to
its power-of-two size. -/
theorem buddy_alignment_violation :
    c3_alloc_result = some 0x5000 ∧ 0x5000 % Buddy.size_for_order 1 ≠ 0 :=
  ⟨by decide, by decide⟩

/-! ## Claim C5: buddy roundtrip (failing evaluation) -/

/-- Populate the allocator with two adjacent 8 MiB regions (a single
order-11 block at `0x1000000`, and `[0x1800000, 0x2000000)` split into
blocks of order 10 down to two order-0 pages), allocate one order-0 page
(`0x1FFF000`) and deallocate it at its original order.  The eager merge
then coalesces all the way up: at every order the XOR-buddy is exactly the
neighbouring free block, until `deallocate(0x1000000, 12)` computes
`buddy_of = 0x1000000 XOR size_for_order(12) = 0`, fails with
`NullPointer`, and drops the fully merged 16 MiB block without pushing it
onto any free list. -/
def c5_result : Option (Buddy.Error × Nat × Nat) :=
  match Buddy.add_region Buddy.BuddyAllocator.new 0x1000000 0x1800000 with
  | .ok (.ok _ b1) =>
      match Buddy.add_region b1 0x1800000 0x2000000 with
      | .ok (.ok _ b2) =>
          match Buddy.allocate b2 0 with
          | .ok (.ok p b3) =>
              match Buddy.deallocate b3 p 0 with
              | .ok (.err e b4) => some (e, b4.stats.allocated, b4.stats.total)
              | _ => none
          | _ => none
      | _ => none
  | _ => none

/-- **C5 (failing evaluation).** In the scenario of `c5_result` every
allocated pointer is deallocated at its original order, yet the call
returns `NullPointer` and leaves `allocated = 0x1000000 ≠ 0` (the entire
16 MiB), instead of returning the allocator to `allocated = 0`. -/
theorem buddy_roundtrip_violation :
    c5_result = some (.NullPointer, 0x1000000, 0x1000000) ∧ (0x1000000 : Nat) ≠ 0 :=
  ⟨by decide, by decide⟩

end NovOS

/-! ## Generic page table (`crates/kernel/src/page.rs`, `page/types.rs`)

The page table owns a root table of 512 entries plus a bag of subtable
pages allocated through `pmem::zalloc_order(0)`.  The embedding makes that
heap explicit: `PageTable.heap` is the list of live 512-entry tables, the
table with index `t` living at physical address `(t + 1) * 4096` (page
aligned and non-null, as `zalloc_order` guarantees; index 0 is the root
`entries` box).  Dereferencing a branch pointer through the physmem window
(`phys2virt`) is embedded as the heap lookup `addrTid`; a pointer that is
not a live table (which is undefined behaviour in the source) becomes the
`badDeref` panic.  Allocation is modelled as always succeeding (the
`Error::Alloc` path of the source is never taken), which is the
environment assumption the claims are stated under. -/

namespace NovOS.Page

/-- `PageSize` (`page/types.rs`). -/
inductive PageSize where
  | Kilopage
  | Megapage
  | Gigapage
  | Terapage
  deriving DecidableEq

/-- `PageSize::size`: `4 KiB / 2 MiB / 1 GiB / 512 GiB`. -/
def PageSize.size : PageSize → Nat
  | .Kilopage => 4 * 2 ^ 10
  | .Megapage => 2 * 2 ^ 20
  | .Gigapage => 1 * 2 ^ 30
  | .Terapage => 512 * 2 ^ 30

/-- `PageSize::vpn_idx`. -/
def PageSize.vpn_idx : PageSize → Nat
  | .Kilopage => 0
  | .Megapage => 1
  | .Gigapage => 2
  | .Terapage => 3

/-- `PageSize::is_aligned`: `addr % self.size() == 0`. -/
def PageSize.is_aligned (s : PageSize) (addr : Nat) : Bool := addr % s.size == 0

/-- `page::Error` (the `Alloc` payload is dropped; that path is never
taken in the embedding). -/
inductive Error where
  | UnsupportedPageSize
  | InvalidAddress
  | UnalignedAddress
  | AlreadyMapped
  | Alloc
  deriving DecidableEq

/-- Panics reachable in the page-table code. -/
inductive Panic where
  /-- dereference of a branch pointer that is not a live table
  (null `as_ref().unwrap()`, or undefined behaviour on garbage). -/
  | badDeref
  /-- the `unreachable!` arm of `traverse`'s `size: match idx` for a leaf
  found at level 3. -/
  | unreachableCode
  deriving DecidableEq

/-- A paging mode: number of levels and maximum virtual address
(`PagingMode::LEVELS` / `PagingMode::MAX_ADDRESS`). -/
structure PagingMode where
  LEVELS : Nat
  MAX_ADDRESS : Nat

/-- Modelled from the spec: the `PagingMode` impl of `Sv39` for the trait
in `page.rs` (with the `MAX_ADDRESS` constant) is not in the tree —
`page/modes.rs` holds an earlier iteration of the trait.  The spec's
three-level 39-bit mode; the maximum address `2 ^ 39 - 1` matches the old
iteration's check `vaddr > 0x7F_FFFF_FFFF`. -/
def Sv39 : PagingMode := { LEVELS := 3, MAX_ADDRESS := 2 ^ 39 - 1 }

/-- Modelled from the spec: the `PagingMode` impl of `Sv48` is not in the
tree.  The spec's four-level 48-bit mode, maximum address `2 ^ 48 - 1`. -/
def Sv48 : PagingMode := { LEVELS := 4, MAX_ADDRESS := 2 ^ 48 - 1 }

/-- `Entry::flags`: `self.0 as u8 >> 1 << 1`, then
`Flags::from_bits_truncate` (the identity on that value, since bits 1..7
are all flag bits). -/
def flagsOf (e : Nat) : Nat := ((e % 2 ^ 8) >>> 1) <<< 1

/-- `EntryKind`. -/
inductive EntryKind where
  | Branch (next : Nat)
  | Leaf
  deriving DecidableEq

/-- `Entry::kind`: valid with empty flags is a branch to
`((e >> 10) & 0x0FFF_FFFF_FFFF) << 12`; valid with flags is a leaf;
otherwise invalid. -/
def kind (e : Nat) : Option EntryKind :=
  if e &&& 1 ≠ 0 then
    if flagsOf e = 0 then some (.Branch (((e >>> 10) &&& 0xFFFFFFFFFFF) <<< 12))
    else some .Leaf
  else none

/-- `PageTable`: the root (`entries`, heap index 0), the allocated
subtable pages (heap indices 1, 2, ...; the table at heap index `t` lives
at physical address `(t + 1) * 4096`), and the `subtables` vector of their
addresses. -/
structure PageTable where
  heap : List (Fin 512 → Nat)
  subtables : List Nat

/-- `PageTable::new`: a zeroed root and no subtables. -/
def PageTable.new : PageTable := { heap := [fun _ => 0], subtables := [] }

/-- Number of live tables. -/
def heapLen (pt : PageTable) : Nat := pt.heap.length

/-- The table at heap index `t` (the source never reads a dead index in a
well-formed walk). -/
def tableAt (pt : PageTable) (t : Nat) : Fin 512 → Nat :=
  pt.heap.getD t (fun _ => 0)

/-- The entry at index `k` of the table at heap index `t`. -/
def entryAt (pt : PageTable) (t : Nat) (k : Fin 512) : Nat := tableAt pt t k

/-- Overwrite one entry (`entry.0 = ..` / `write_volatile`). -/
def setEntry (pt : PageTable) (t : Nat) (k : Fin 512) (e : Nat) : PageTable :=
  { pt with heap := pt.heap.set t (Function.update (tableAt pt t) k e) }

/-- Dereference a physical table address through the physmem window: the
address `(j + 1) * 4096` of a live table resolves to heap index `j`;
anything else is not a live table and dereferencing it panics. -/
def addrTid (pt : PageTable) (addr : Nat) : Option Nat :=
  if addr % 4096 = 0 ∧ 4096 ≤ addr ∧ addr / 4096 - 1 < heapLen pt then
    some (addr / 4096 - 1)
  else none

/-- `Self::vpn`: `(vaddr >> (12 + idx * 9)) & 0x1FF`. -/
def vpn (v i : Nat) : Nat := (v >>> (12 + i * 9)) &&& 0x1FF

theorem vpn_eq_mod (v i : Nat) : vpn v i = v / 2 ^ (12 + i * 9) % 2 ^ 9 := by
  unfold vpn
  rw [show (0x1FF : Nat) = 2 ^ 9 - 1 from rfl, and_mask_eq_mod, shiftRight_eq_div]

theorem vpn_lt (v i : Nat) : vpn v i < 512 := by
  rw [vpn_eq_mod]
  exact Nat.mod_lt _ (by omega)

/-- `Self::vpn` as an index into a 512-entry table. -/
def vpnF (v i : Nat) : Fin 512 := ⟨vpn v i, vpn_lt v i⟩

/-- `zalloc_order(0)` of a fresh subtable while mapping: the new zeroed
table is appended to the heap (its address is `(heapLen + 1) * 4096`), the
entry at `(tid, k)` becomes a branch `(addr >> 2) | VALID` to it, and the
address is pushed onto `subtables`. -/
def allocEntry (pt : PageTable) (tid : Nat) (k : Fin 512) : PageTable :=
  { heap := (setEntry pt tid k ((((heapLen pt + 1) * 4096) >>> 2) ||| 1)).heap
      ++ [fun _ => 0],
    subtables := pt.subtables ++ [(heapLen pt + 1) * 4096] }

/-- Result of the level walk in `map` and of `map` itself: success or a
`page::Error`, in both cases with the table state left behind (`&mut self`
keeps partial mutations on the error paths). -/
inductive WalkRes where
  | ok (pt : PageTable) (tid : Nat)
  | err (e : Error) (pt : PageTable)

/-- The level walk of `map`
(`for vpn_i in (size.vpn_idx() + 1..M::LEVELS).rev()`): starting at the
root, process levels `stop + n, stop + n - 1, ..., stop + 1`, descending
through branches, allocating fresh subtables for invalid entries, and
failing with `AlreadyMapped` on a leaf.  Returns the table for the target
level. -/
def walkDown (v stop : Nat) : Nat → PageTable → Nat → Except Panic WalkRes
  | 0, pt, tid => .ok (.ok pt tid)
  | n + 1, pt, tid =>
    match kind (entryAt pt tid (vpnF v (stop + n + 1))) with
    | some .Leaf => .ok (.err .AlreadyMapped pt)
    | some (.Branch next) =>
        match addrTid pt next with
        | none => .error .badDeref
        | some j => walkDown v stop n pt j
    | none => walkDown v stop n (allocEntry pt tid (vpnF v (stop + n + 1))) (heapLen pt)

/-- The new leaf entry `(ppn << 10) | flags | VALID` with
`ppn = paddr >> 12`. -/
def leafEntry (paddr flags : Nat) : Nat := ((paddr >>> 12) <<< 10) ||| flags ||| 1

/-- `PageTable::map`. -/
def map (M : PagingMode) (pt : PageTable) (paddr vaddr : Nat) (size : PageSize)
    (flags : Nat) : Except Panic WalkRes :=
  -- check if this paging mode supports the given pagesize
  if M.LEVELS ≤ size.vpn_idx then .ok (.err .UnsupportedPageSize pt)
  -- validate the addresses
  else if M.MAX_ADDRESS ≤ vaddr ∨ vaddr &&& usizeNot M.MAX_ADDRESS ≠ 0 then
    .ok (.err .InvalidAddress pt)
  -- verify the given addresses
  else if !(size.is_aligned paddr) || !(size.is_aligned vaddr) then
    .ok (.err .UnalignedAddress pt)
  else
    match walkDown vaddr size.vpn_idx (M.LEVELS - 1 - size.vpn_idx) pt 0 with
    | .error p => .error p
    | .ok (.err e pt1) => .ok (.err e pt1)
    | .ok (.ok pt1 tid) =>
        -- if the target entry is a leaf, aka already mapped, error
        if kind (entryAt pt1 tid (vpnF vaddr size.vpn_idx)) = some .Leaf then
          .ok (.err .AlreadyMapped pt1)
        else
          .ok (.ok (setEntry pt1 tid (vpnF vaddr size.vpn_idx)
            (leafEntry paddr flags)) tid)

/-- The loop of `PageTable::traverse`: from level `i` in table `tid`,
walk down until a leaf (returning its location and level), an invalid
entry or the bottom (returning nothing). -/
def traverseAux (pt : PageTable) (v : Nat) : Nat → Nat → Except Panic (Option (Nat × Nat))
  | 0, tid =>
    match kind (entryAt pt tid (vpnF v 0)) with
    | none => .ok none
    | some .Leaf => .ok (some (tid, 0))
    | some (.Branch next) =>
        match addrTid pt next with
        | none => .error .badDeref
        | some _ => .ok none
  | i + 1, tid =>
    match kind (entryAt pt tid (vpnF v (i + 1))) with
    | none => .ok none
    | some .Leaf => .ok (some (tid, i + 1))
    | some (.Branch next) =>
        match addrTid pt next with
        | none => .error .badDeref
        | some j => traverseAux pt v i j

/-- The `Mapping` returned by `traverse` (the found leaf entry's location
plus the page size; the `table_mib`/`table_kib` bookkeeping fields are
unused by `translate` and `unmap` and omitted). -/
structure Mapping where
  tid : Nat
  idx : Nat
  size : PageSize
  deriving DecidableEq

/-- `PageTable::traverse`: run the walk from the top level, then build the
`Mapping` — whose `size` field is `match idx { 0 => Kilopage, 1 =>
Megapage, 2 => Gigapage, _ => unreachable!() }`, so a leaf found at level
3 panics. -/
def traverse (M : PagingMode) (pt : PageTable) (v : Nat) :
    Except Panic (Option Mapping) :=
  match traverseAux pt v (M.LEVELS - 1) 0 with
  | .error p => .error p
  | .ok none => .ok none
  | .ok (some (tid, i)) =>
      match i with
      | 0 => .ok (some ⟨tid, 0, .Kilopage⟩)
      | 1 => .ok (some ⟨tid, 1, .Megapage⟩)
      | 2 => .ok (some ⟨tid, 2, .Gigapage⟩)
      | _ => .error .unreachableCode

/-- The page-offset mask used by `translate`. -/
def offMask : PageSize → Nat
  | .Kilopage => 0xFFF
  | .Megapage => 0x1FFFFF
  | .Gigapage => 0x3FFFFFFF
  | .Terapage => 0x7FFFFFFFFF

/-- `PageTable::translate`: physical address (leaf PPN shifted up, plus
the page offset of `v`), page size and flags of the found leaf. -/
def translate (M : PagingMode) (pt : PageTable) (v : Nat) :
    Except Panic (Option (Nat × PageSize × Nat)) :=
  match traverse M pt v with
  | .error p => .error p
  | .ok none => .ok none
  | .ok (some m) =>
      .ok (some (
        ((entryAt pt m.tid (vpnF v m.idx) >>> 10) <<< 12 % W
          + (v &&& offMask m.size)) % W,
        m.size,
        flagsOf (entryAt pt m.tid (vpnF v m.idx))))

/-- `PageTable::unmap`: traverse, zero the found leaf entry; `false` when
nothing was mapped. -/
def unmap (M : PagingMode) (pt : PageTable) (v : Nat) :
    Except Panic (Bool × PageTable) :=
  match traverse M pt v with
  | .error p => .error p
  | .ok none => .ok (false, pt)
  | .ok (some m) => .ok (true, setEntry pt m.tid (vpnF v m.idx) 0)

end NovOS.Page
namespace NovOS.Page
open NovOS

/-! ### Entry-level lemmas -/

theorem kind_zero : kind 0 = none := by decide

theorem leafEntry_eq (p : Nat) {f : Nat} (hf : f < 256) (hf2 : f % 2 = 0) :
    leafEntry p f = p >>> 12 * 1024 + f + 1 := by
  unfold leafEntry
  rw [shiftLeft_eq_mul, show (2 : Nat) ^ 10 = 1024 from rfl]
  have h1 : p >>> 12 * 1024 ||| f = p >>> 12 * 1024 + f :=
    lor_eq_add 8 (by omega) (by omega)
  rw [h1]
  exact lor_eq_add 1 (by omega) (by omega)

theorem flagsOf_leafEntry (p : Nat) {f : Nat} (hf : f < 256) (hf2 : f % 2 = 0) :
    flagsOf (leafEntry p f) = f := by
  rw [leafEntry_eq p hf hf2]
  unfold flagsOf
  rw [shiftRight_eq_div, shiftLeft_eq_mul, show (2 : Nat) ^ 8 = 256 from rfl,
    show (2 : Nat) ^ 1 = 2 from rfl]
  omega

theorem kind_leafEntry (p : Nat) {f : Nat} (hf : f < 256) (hf2 : f % 2 = 0)
    (hf3 : f ≠ 0) : kind (leafEntry p f) = some .Leaf := by
  have hodd : leafEntry p f &&& 1 ≠ 0 := by
    rw [show (1 : Nat) = 2 ^ 1 - 1 from rfl, and_mask_eq_mod,
      leafEntry_eq p hf hf2]
    omega
  have hfl : ¬ flagsOf (leafEntry p f) = 0 := by
    rw [flagsOf_leafEntry p hf hf2]; exact hf3
  unfold kind
  rw [if_pos hodd, if_neg hfl]

theorem branchVal_eq (j : Nat) :
    (((j + 1) * 4096) >>> 2) ||| 1 = (j + 1) * 1024 + 1 := by
  have h1 : ((j + 1) * 4096) >>> 2 = (j + 1) * 1024 := by
    rw [shiftRight_eq_div]
    have : (2 : Nat) ^ 2 = 4 := rfl
    omega
  rw [h1]
  exact lor_eq_add 1 (by omega) (by omega)

theorem kind_branchVal (j : Nat) (hj : j + 1 < 2 ^ 44) :
    kind ((((j + 1) * 4096) >>> 2) ||| 1) = some (.Branch ((j + 1) * 4096)) := by
  rw [branchVal_eq]
  have h1 : ((j + 1) * 1024 + 1) &&& 1 ≠ 0 := by
    rw [show (1 : Nat) = 2 ^ 1 - 1 from rfl, and_mask_eq_mod]
    omega
  have h2 : flagsOf ((j + 1) * 1024 + 1) = 0 := by
    unfold flagsOf
    rw [shiftRight_eq_div, shiftLeft_eq_mul, show (2 : Nat) ^ 8 = 256 from rfl,
      show (2 : Nat) ^ 1 = 2 from rfl]
    omega
  have ha : ((j + 1) * 1024 + 1) >>> 10 = j + 1 := by
    rw [shiftRight_eq_div]
    have : (2 : Nat) ^ 10 = 1024 := rfl
    omega
  have hb : (j + 1) &&& 0xFFFFFFFFFFF = j + 1 := by
    rw [show (0xFFFFFFFFFFF : Nat) = 2 ^ 44 - 1 from rfl, and_mask_eq_mod]
    exact Nat.mod_eq_of_lt hj
  unfold kind
  rw [if_pos h1, if_pos h2, ha, hb, shiftLeft_eq_mul]
  norm_num

end NovOS.Page
namespace NovOS.Page
open NovOS

/-! ### Structural lemmas about the table heap -/

theorem getD_set_self {α} (l : List α) {i : Nat} (h : i < l.length) (a d : α) :
    (l.set i a).getD i d = a := by
  simp [List.getD_eq_getElem?_getD, List.getElem?_set_self h]

theorem getD_set_ne {α} (l : List α) {i j : Nat} (h : j ≠ i) (a d : α) :
    (l.set i a).getD j d = l.getD j d := by
  simp [List.getD_eq_getElem?_getD, List.getElem?_set_ne (Ne.symm h)]

theorem getD_append_left {α} (l1 l2 : List α) {i : Nat} (h : i < l1.length) (d : α) :
    (l1 ++ l2).getD i d = l1.getD i d := by
  simp [List.getD_eq_getElem?_getD, List.getElem?_append_left h]

theorem getD_append_self {α} (l1 : List α) (a d : α) :
    (l1 ++ [a]).getD l1.length d = a := by
  simp [List.getD_eq_getElem?_getD]

theorem heapLen_setEntry (pt : PageTable) (t : Nat) (k : Fin 512) (e : Nat) :
    heapLen (setEntry pt t k e) = heapLen pt := by
  simp [heapLen, setEntry]

theorem tableAt_setEntry_ne (pt : PageTable) {t t' : Nat} (h : t' ≠ t)
    (k : Fin 512) (e : Nat) : tableAt (setEntry pt t k e) t' = tableAt pt t' :=
  getD_set_ne _ h _ _

theorem tableAt_setEntry_self (pt : PageTable) {t : Nat} (h : t < heapLen pt)
    (k : Fin 512) (e : Nat) :
    tableAt (setEntry pt t k e) t = Function.update (tableAt pt t) k e :=
  getD_set_self _ h _ _

theorem entryAt_setEntry_self (pt : PageTable) {t : Nat} (h : t < heapLen pt)
    (k : Fin 512) (e : Nat) : entryAt (setEntry pt t k e) t k = e := by
  unfold entryAt
  rw [tableAt_setEntry_self pt h k e]
  simp

theorem entryAt_setEntry_ne_k (pt : PageTable) {t : Nat} (h : t < heapLen pt)
    {k k' : Fin 512} (hk : k' ≠ k) (e : Nat) :
    entryAt (setEntry pt t k e) t k' = entryAt pt t k' := by
  unfold entryAt
  rw [tableAt_setEntry_self pt h k e]
  simp [Function.update, hk]

theorem heapLen_allocEntry (pt : PageTable) (tid : Nat) (k : Fin 512) :
    heapLen (allocEntry pt tid k) = heapLen pt + 1 := by
  simp [heapLen, allocEntry, setEntry]

theorem tableAt_allocEntry_old (pt : PageTable) {tid t : Nat} (ht : t < heapLen pt)
    (hne : t ≠ tid) (k : Fin 512) :
    tableAt (allocEntry pt tid k) t = tableAt pt t := by
  have h1 : tableAt (allocEntry pt tid k) t
      = tableAt (setEntry pt tid k ((((heapLen pt + 1) * 4096) >>> 2) ||| 1)) t := by
    simp only [tableAt, allocEntry]
    exact getD_append_left
      (setEntry pt tid k ((((heapLen pt + 1) * 4096) >>> 2) ||| 1)).heap
      [fun _ => 0] (by simpa [setEntry, heapLen] using ht) _
  rw [h1, tableAt_setEntry_ne pt hne k]

theorem tableAt_allocEntry_tid (pt : PageTable) {tid : Nat} (ht : tid < heapLen pt)
    (k : Fin 512) :
    tableAt (allocEntry pt tid k) tid =
      Function.update (tableAt pt tid) k ((((heapLen pt + 1) * 4096) >>> 2) ||| 1) := by
  have h1 : tableAt (allocEntry pt tid k) tid
      = tableAt (setEntry pt tid k ((((heapLen pt + 1) * 4096) >>> 2) ||| 1)) tid := by
    simp only [tableAt, allocEntry]
    exact getD_append_left
      (setEntry pt tid k ((((heapLen pt + 1) * 4096) >>> 2) ||| 1)).heap
      [fun _ => 0] (by simpa [setEntry, heapLen] using ht) _
  rw [h1, tableAt_setEntry_self pt ht k]

theorem entryAt_allocEntry_tid (pt : PageTable) {tid : Nat} (ht : tid < heapLen pt)
    (k : Fin 512) :
    entryAt (allocEntry pt tid k) tid k = (((heapLen pt + 1) * 4096) >>> 2) ||| 1 := by
  unfold entryAt
  rw [tableAt_allocEntry_tid pt ht k]
  simp

theorem entryAt_allocEntry_tid_ne (pt : PageTable) {tid : Nat} (ht : tid < heapLen pt)
    {k k' : Fin 512} (hk : k' ≠ k) :
    entryAt (allocEntry pt tid k) tid k' = entryAt pt tid k' := by
  unfold entryAt
  rw [tableAt_allocEntry_tid pt ht k]
  simp [Function.update, hk]

theorem tableAt_allocEntry_new (pt : PageTable) (tid : Nat) (k : Fin 512) :
    tableAt (allocEntry pt tid k) (heapLen pt) = fun _ => 0 := by
  have h1 : tableAt (allocEntry pt tid k) (heapLen pt)
      = ((setEntry pt tid k ((((heapLen pt + 1) * 4096) >>> 2) ||| 1)).heap
          ++ [fun _ => 0]).getD (heapLen pt) (fun _ => 0) := rfl
  rw [h1]
  generalize hL : (setEntry pt tid k ((((heapLen pt + 1) * 4096) >>> 2) ||| 1)).heap = L
  have h2 : heapLen pt = L.length := by rw [← hL]; simp [setEntry, heapLen]
  rw [h2]
  exact getD_append_self _ _ _

/-! ### Address dereferencing -/

theorem addrTid_mk {pt : PageTable} {j : Nat} (h : j < heapLen pt) :
    addrTid pt ((j + 1) * 4096) = some j := by
  unfold addrTid
  rw [if_pos ⟨by omega, by omega, by
    have : (j + 1) * 4096 / 4096 = j + 1 := by omega
    omega⟩]
  congr 1
  omega

theorem addrTid_inv {pt : PageTable} {addr j : Nat} (h : addrTid pt addr = some j) :
    addr = (j + 1) * 4096 ∧ j < heapLen pt := by
  unfold addrTid at h
  split at h
  · next hc =>
    simp only [Option.some.injEq] at h
    obtain ⟨h1, h2, h3⟩ := hc
    subst h
    constructor
    · omega
    · omega
  · exact absurd h (by simp)

theorem addrTid_mono {pt pt' : PageTable} {addr j : Nat}
    (hlen : heapLen pt ≤ heapLen pt') (h : addrTid pt addr = some j) :
    addrTid pt' addr = some j := by
  obtain ⟨rfl, hj⟩ := addrTid_inv h
  exact addrTid_mk (by omega)

theorem addrTid_setEntry (pt : PageTable) (t : Nat) (k : Fin 512) (e addr : Nat) :
    addrTid (setEntry pt t k e) addr = addrTid pt addr := by
  unfold addrTid
  rw [heapLen_setEntry]

end NovOS.Page
namespace NovOS.Page
open NovOS

/-! ### Well-formed page tables

Branch entries of a well-formed table point to live tables of strictly
larger heap index, so walks follow strictly increasing indices and
terminate; every state built from `PageTable.new` by `map` satisfies
this (freshly allocated tables are appended at the end of the heap). -/

/-- One entry is well formed at table index `t`: if it is a branch, its
target dereferences to a live table of strictly larger index. -/
def branchOK (pt : PageTable) (t e : Nat) : Prop :=
  ∀ next, kind e = some (.Branch next) →
    ∃ j, addrTid pt next = some j ∧ t < j

/-- Well-formed page table. -/
def WF (pt : PageTable) : Prop :=
  0 < heapLen pt ∧ ∀ t, t < heapLen pt → ∀ k : Fin 512, branchOK pt t (entryAt pt t k)

theorem WF_new : WF PageTable.new := by
  constructor
  · simp [heapLen, PageTable.new]
  · intro t ht k
    have ht0 : t = 0 := by simp [heapLen, PageTable.new] at ht; omega
    subst ht0
    have he : entryAt PageTable.new 0 k = 0 := rfl
    rw [he]
    intro next hk
    rw [kind_zero] at hk
    exact absurd hk (by simp)

theorem branchOK_mono {pt pt' : PageTable} {t e : Nat}
    (hlen : heapLen pt ≤ heapLen pt') (hb : branchOK pt t e) : branchOK pt' t e := by
  intro next hk
  obtain ⟨j, hd, hj⟩ := hb next hk
  exact ⟨j, addrTid_mono hlen hd, hj⟩

/-- Allocating a fresh subtable preserves well-formedness. -/
theorem WF_allocEntry {pt : PageTable} {tid : Nat} (hw : WF pt)
    (htid : tid < heapLen pt) (hb : heapLen pt + 1 < 2 ^ 44) (k : Fin 512) :
    WF (allocEntry pt tid k) := by
  obtain ⟨hpos, hall⟩ := hw
  have hlen := heapLen_allocEntry pt tid k
  refine ⟨by omega, ?_⟩
  intro t ht k'
  rcases Nat.lt_or_ge t (heapLen pt) with htl | htl
  · -- an old table
    by_cases hte : t = tid
    · by_cases hke : k' = k
      · rw [hte, hke, entryAt_allocEntry_tid pt htid k]
        intro next hk
        rw [kind_branchVal (heapLen pt) hb] at hk
        simp only [Option.some.injEq, EntryKind.Branch.injEq] at hk
        subst hk
        exact ⟨heapLen pt, addrTid_mk (by omega), htid⟩
      · rw [hte, entryAt_allocEntry_tid_ne pt htid hke]
        exact branchOK_mono (by omega) (hall tid htid k')
    · have hto := tableAt_allocEntry_old pt htl hte k
      unfold entryAt
      rw [hto]
      exact branchOK_mono (by omega) (hall t htl k')
  · -- the fresh zero table
    have hteq : t = heapLen pt := by omega
    subst hteq
    unfold entryAt
    rw [tableAt_allocEntry_new pt tid k]
    intro next hk
    rw [kind_zero] at hk
    exact absurd hk (by simp)

/-! ### Branch chains

`Chain pt v stop n tid tid1` says: starting from table `tid`, the entries
selected by `v` at levels `stop + n, ..., stop + 1` are branches that
dereference along strictly increasing heap indices, ending at `tid1`.
A successful level walk produces such a chain, and the chain replays both
the walk and the traverse loop without mutation. -/

inductive Chain (pt : PageTable) (v stop : Nat) : Nat → Nat → Nat → Prop where
  | nil (tid : Nat) : Chain pt v stop 0 tid tid
  | cons (n tid j tid1 next : Nat)
      (hk : kind (entryAt pt tid (vpnF v (stop + n + 1))) = some (.Branch next))
      (hd : addrTid pt next = some j) (hj : tid < j)
      (hc : Chain pt v stop n j tid1) : Chain pt v stop (n + 1) tid tid1

theorem Chain.le {pt : PageTable} {v stop n tid tid1 : Nat}
    (h : Chain pt v stop n tid tid1) : tid ≤ tid1 := by
  induction h with
  | nil tid => exact le_rfl
  | cons n tid j tid1 next hk hd hj hc ih => omega

/-- Writing the entry at the chain's final node (which none of the chain's
steps read, since all read nodes have strictly smaller index) preserves
the chain. -/
theorem Chain.setEntry_last {pt : PageTable} {v stop n tid tid1 : Nat}
    (h : Chain pt v stop n tid tid1) (k : Fin 512) (e : Nat) :
    Chain (setEntry pt tid1 k e) v stop n tid tid1 := by
  induction h with
  | nil tid => exact Chain.nil tid
  | cons n tid j tid1 next hk hd hj hc ih =>
    refine Chain.cons n tid j tid1 next ?_ ?_ hj ih
    · have hne : tid ≠ tid1 := by have := hc.le; omega
      unfold entryAt
      rw [tableAt_setEntry_ne pt hne k e]
      exact hk
    · rw [addrTid_setEntry]
      exact hd

end NovOS.Page
namespace NovOS.Page
open NovOS

/-! ### More structural lemmas -/

theorem getD_ge {α} (l : List α) {i : Nat} (h : l.length ≤ i) (d : α) :
    l.getD i d = d := by
  simp [List.getD_eq_getElem?_getD, List.getElem?_eq_none h]

theorem tableAt_ge (pt : PageTable) {t : Nat} (h : heapLen pt ≤ t) :
    tableAt pt t = fun _ => 0 :=
  getD_ge _ h _

/-- Writing `0` at `(t0, k0)` zeroes that slot — also when `t0` is a dead
index, where the write is a no-op and the entry reads as `0` anyway. -/
theorem entryAt_setEntry_zero_self (pt : PageTable) (t0 : Nat) (k0 : Fin 512) :
    entryAt (setEntry pt t0 k0 0) t0 k0 = 0 := by
  by_cases h : t0 < heapLen pt
  · exact entryAt_setEntry_self pt h k0 0
  · unfold entryAt
    have h1 : tableAt (setEntry pt t0 k0 0) t0 = fun _ => 0 := by
      unfold tableAt setEntry
      exact getD_ge _ (by simp only [List.length_set]; simp only [heapLen] at h; omega) _
    rw [h1]

/-- Any slot other than the written one is unchanged by `setEntry`. -/
theorem entryAt_setEntry_other (pt : PageTable) (t0 : Nat) (k0 : Fin 512) (e : Nat)
    {t : Nat} {k : Fin 512} (h : t ≠ t0 ∨ k ≠ k0) :
    entryAt (setEntry pt t0 k0 e) t k = entryAt pt t k := by
  rcases h with h | h
  · unfold entryAt
    rw [tableAt_setEntry_ne pt h]
  · by_cases ht : t = t0
    · subst ht
      by_cases hl : t < heapLen pt
      · exact entryAt_setEntry_ne_k pt hl h e
      · unfold entryAt
        have h1 : tableAt (setEntry pt t k0 e) t = fun _ => 0 := by
          unfold tableAt setEntry
          exact getD_ge _ (by simp only [List.length_set]; simp only [heapLen] at hl; omega) _
        have h2 : tableAt pt t = fun _ => 0 := tableAt_ge pt (by omega)
        rw [h1, h2]
    · unfold entryAt
      rw [tableAt_setEntry_ne pt ht]

/-! ### Specification of the level walk

A successful level walk on a well-formed table preserves well-formedness,
only grows the heap, never touches tables below the entry point, and
leaves behind a branch chain from the entry point to the returned table. -/

theorem walkDown_spec (v stop : Nat) :
    ∀ (n : Nat) (pt : PageTable) (tid : Nat) (pt1 : PageTable) (tid1 : Nat),
      WF pt → tid < heapLen pt → heapLen pt + n < 2 ^ 44 →
      walkDown v stop n pt tid = .ok (.ok pt1 tid1) →
      WF pt1 ∧ heapLen pt ≤ heapLen pt1 ∧ heapLen pt1 ≤ heapLen pt + n ∧
        tid1 < heapLen pt1 ∧ (∀ t, t < tid → tableAt pt1 t = tableAt pt t) ∧
        Chain pt1 v stop n tid tid1 := by
  intro n
  induction n with
  | zero =>
    intro pt tid pt1 tid1 hw htid hcap h
    simp only [walkDown, Except.ok.injEq, WalkRes.ok.injEq] at h
    obtain ⟨rfl, rfl⟩ := h
    exact ⟨hw, le_rfl, by omega, htid, fun t _ => rfl, Chain.nil tid⟩
  | succ n ih =>
    intro pt tid pt1 tid1 hw htid hcap h
    simp only [walkDown] at h
    split at h
    · simp at h
    · rename_i nx heq
      split at h
      · simp at h
      · rename_i j heq2
        have hb : branchOK pt tid (entryAt pt tid (vpnF v (stop + n + 1))) :=
          hw.2 tid htid (vpnF v (stop + n + 1))
        obtain ⟨j', hd', hj'⟩ := hb nx heq
        rw [heq2] at hd'
        injection hd' with hjj
        subst hjj
        have hjlt : j < heapLen pt := (addrTid_inv heq2).2
        obtain ⟨hw1, hl1, hl2, ht1, hfr, hch⟩ :=
          ih pt j pt1 tid1 hw hjlt (by omega) h
        refine ⟨hw1, by omega, by omega, ht1, fun t ht => hfr t (by omega), ?_⟩
        refine Chain.cons n tid j tid1 nx ?_ (addrTid_mono hl1 heq2) hj' hch
        show kind (tableAt pt1 tid (vpnF v (stop + n + 1))) = some (.Branch nx)
        rw [hfr tid hj']
        exact heq
    · rename_i heq
      have hcap1 : heapLen pt + 1 < 2 ^ 44 := by omega
      have hw' := WF_allocEntry hw htid hcap1 (vpnF v (stop + n + 1))
      have hlen' := heapLen_allocEntry pt tid (vpnF v (stop + n + 1))
      obtain ⟨hw1, hl1, hl2, ht1, hfr, hch⟩ :=
        ih (allocEntry pt tid (vpnF v (stop + n + 1))) (heapLen pt) pt1 tid1
          hw' (by omega) (by omega) h
      refine ⟨hw1, by omega, by omega, ht1, ?_, ?_⟩
      · intro t ht
        rw [hfr t (by omega),
          tableAt_allocEntry_old pt (by omega) (by omega) (vpnF v (stop + n + 1))]
      · refine Chain.cons n tid (heapLen pt) tid1 ((heapLen pt + 1) * 4096)
          ?_ (addrTid_mk (by omega)) htid hch
        show kind (tableAt pt1 tid (vpnF v (stop + n + 1))) = _
        rw [hfr tid htid]
        show kind (entryAt (allocEntry pt tid (vpnF v (stop + n + 1))) tid
          (vpnF v (stop + n + 1))) = _
        rw [entryAt_allocEntry_tid pt htid]
        exact kind_branchVal (heapLen pt) hcap1

/-- A branch chain replays: the walk with extra fuel `n` follows the `n`
recorded branch steps without mutating the table and continues from the
chain's end. -/
theorem walkDown_replay {v stop d : Nat} :
    ∀ {n : Nat} {pt : PageTable} {tid tid1 : Nat},
      Chain pt v (stop + d) n tid tid1 →
      walkDown v stop (n + d) pt tid = walkDown v stop d pt tid1 := by
  intro n pt tid tid1 h
  induction h with
  | nil tid => rw [Nat.zero_add]
  | cons n tid j tid1 nx hk hd hj hc ih =>
    have e1 : n + 1 + d = n + d + 1 := by omega
    rw [e1]
    simp only [walkDown]
    have e2 : stop + (n + d) + 1 = stop + d + n + 1 := by omega
    rw [e2, hk]
    show (match addrTid pt nx with
      | none => (Except.error Panic.badDeref : Except Panic WalkRes)
      | some j => walkDown v stop (n + d) pt j) = walkDown v stop d pt tid1
    rw [hd]
    exact ih

end NovOS.Page
namespace NovOS.Page
open NovOS

/-! ### What a successful `map` leaves behind -/

theorem mod_zero_of_dvd {v a b : Nat} (hd : b ∣ a) (h : v % a = 0) : v % b = 0 := by
  rw [← Nat.mod_mod_of_dvd v hd, h, Nat.zero_mod]

/-- A smaller page size's alignment follows from a larger one's: the
four page sizes are nested powers of two. -/
theorem is_aligned_le {s1 s2 : PageSize} (h : s2.vpn_idx ≤ s1.vpn_idx) (v : Nat)
    (ha : s1.is_aligned v = true) : s2.is_aligned v = true := by
  have hs : s2.size ∣ s1.size := by
    cases s1 <;> cases s2 <;>
      first
        | decide
        | (exfalso; simp [PageSize.vpn_idx] at h)
  unfold PageSize.is_aligned at ha ⊢
  simp only [beq_iff_eq] at ha ⊢
  exact mod_zero_of_dvd hs ha

/-- A successful `map` passed all three input checks and left a branch
chain from the root down to the target table, whose target slot now holds
a leaf. -/
theorem map_ok_inv {M : PagingMode} {pt : PageTable} {paddr vaddr : Nat}
    {size : PageSize} {flags : Nat} {pt1 : PageTable} {tid1 : Nat}
    (hw : WF pt) (hcap : heapLen pt + M.LEVELS < 2 ^ 44)
    (hf : flags < 256) (hf2 : flags % 2 = 0) (hf3 : flags ≠ 0)
    (h : map M pt paddr vaddr size flags = .ok (.ok pt1 tid1)) :
    size.vpn_idx < M.LEVELS ∧
    ¬ (M.MAX_ADDRESS ≤ vaddr ∨ vaddr &&& usizeNot M.MAX_ADDRESS ≠ 0) ∧
    size.is_aligned paddr = true ∧ size.is_aligned vaddr = true ∧
    tid1 < heapLen pt1 ∧
    Chain pt1 vaddr size.vpn_idx (M.LEVELS - 1 - size.vpn_idx) 0 tid1 ∧
    kind (entryAt pt1 tid1 (vpnF vaddr size.vpn_idx)) = some EntryKind.Leaf := by
  unfold map at h
  split at h
  · simp at h
  · rename_i hlev
    split at h
    · simp at h
    · rename_i haddr
      split at h
      · simp at h
      · rename_i halign
        have halign' : size.is_aligned paddr = true ∧ size.is_aligned vaddr = true := by
          cases hpa : size.is_aligned paddr <;>
            cases hva : size.is_aligned vaddr <;> simp_all
        split at h
        · simp at h
        · simp at h
        · rename_i pt' tid' hwp
          split at h
          · simp at h
          · rename_i hnl
            simp only [Except.ok.injEq, WalkRes.ok.injEq] at h
            obtain ⟨rfl, rfl⟩ := h
            obtain ⟨hw1, hl1, hl2, ht1, hfr, hch⟩ :=
              walkDown_spec vaddr size.vpn_idx (M.LEVELS - 1 - size.vpn_idx)
                pt 0 pt' tid' hw hw.1 (by omega) hwp
            refine ⟨by omega, haddr, halign'.1, halign'.2, ?_, ?_, ?_⟩
            · rw [heapLen_setEntry]
              exact ht1
            · exact hch.setEntry_last _ _
            · rw [entryAt_setEntry_self pt' ht1]
              exact kind_leafEntry paddr hf hf2 hf3

end NovOS.Page
namespace NovOS.Page
open NovOS

/-- Extract the table state out of a `map` result (used to name concrete
tables produced by concrete calls). -/
def resPT (r : Except Panic WalkRes) (d : PageTable) : PageTable :=
  match r with
  | .ok (.ok pt _) => pt
  | .ok (.err _ pt) => pt
  | .error _ => d

/-- The table produced by mapping the Kilopage at `vaddr = 0` on `Sv39`
(root plus two fresh subtables, leaf at heap index 2). -/
def c2pt1 : PageTable := resPT (map Sv39 PageTable.new 0 0 .Kilopage 2) PageTable.new

/-- C2: a second `map` of an already-mapped `vaddr` returns `AlreadyMapped`
and leaves the table exactly as it was (the returned state is the input
state `pt1` itself), provided the second call survives the input checks
that run first: its page size is no larger than the original (a larger
size re-walks fewer levels and overwrites the old branch instead of
failing) and its `paddr` is aligned.  Quantified over any well-formed
table, both paging modes, all flags and both page sizes. -/
theorem map_remap_already_mapped {M : PagingMode} {pt pt1 : PageTable}
    {p1 v f1 : Nat} {s1 : PageSize} {tid1 : Nat}
    (hw : WF pt) (hcap : heapLen pt + M.LEVELS < 2 ^ 44)
    (hf : f1 < 256) (hf2 : f1 % 2 = 0) (hf3 : f1 ≠ 0)
    (h1 : map M pt p1 v s1 f1 = .ok (.ok pt1 tid1))
    (p2 f2 : Nat) (s2 : PageSize) (hs : s2.vpn_idx ≤ s1.vpn_idx)
    (hp2 : s2.is_aligned p2 = true) :
    map M pt1 p2 v s2 f2 = .ok (.err .AlreadyMapped pt1) := by
  obtain ⟨hlev, haddr, hpa1, hva1, ht1, hch, hleaf⟩ :=
    map_ok_inv hw hcap hf hf2 hf3 h1
  have hva2 : s2.is_aligned v = true := is_aligned_le hs v hva1
  unfold map
  rw [if_neg (show ¬ M.LEVELS ≤ s2.vpn_idx by omega), if_neg haddr,
    if_neg (show ¬ (!(s2.is_aligned p2) || !(s2.is_aligned v)) = true by
      simp [hp2, hva2])]
  have hstop : s1.vpn_idx = s2.vpn_idx + (s1.vpn_idx - s2.vpn_idx) := by omega
  have hch' : Chain pt1 v (s2.vpn_idx + (s1.vpn_idx - s2.vpn_idx))
      (M.LEVELS - 1 - s1.vpn_idx) 0 tid1 := by
    rw [← hstop]
    exact hch
  have hrep := walkDown_replay hch'
  have hnd : M.LEVELS - 1 - s2.vpn_idx
      = M.LEVELS - 1 - s1.vpn_idx + (s1.vpn_idx - s2.vpn_idx) := by omega
  rw [hnd, hrep]
  cases hdd : s1.vpn_idx - s2.vpn_idx with
  | zero =>
    have hse : s2.vpn_idx = s1.vpn_idx := by omega
    have hleaf2 : kind (entryAt pt1 tid1 (vpnF v s2.vpn_idx))
        = some EntryKind.Leaf := by
      rw [hse]
      exact hleaf
    simp only [walkDown]
    show (if kind (entryAt pt1 tid1 (vpnF v s2.vpn_idx)) = some EntryKind.Leaf then
        (Except.ok (WalkRes.err Error.AlreadyMapped pt1) : Except Panic WalkRes)
      else Except.ok (WalkRes.ok
        (setEntry pt1 tid1 (vpnF v s2.vpn_idx) (leafEntry p2 f2)) tid1))
      = Except.ok (WalkRes.err Error.AlreadyMapped pt1)
    rw [if_pos hleaf2]
  | succ d' =>
    have hse : s2.vpn_idx + d' + 1 = s1.vpn_idx := by omega
    simp only [walkDown]
    rw [hse, hleaf]

end NovOS.Page
namespace NovOS.Page
open NovOS

/-- Did `map` succeed? -/
def resOK : Except Panic WalkRes → Bool
  | .ok (.ok _ _) => true
  | _ => false

/-- C2 counterexample to the unrestricted claim: after a successful
Kilopage map of `vaddr = 0`, a second map of the same address with the
larger Gigapage size is *not* rejected with `AlreadyMapped` — the target
level sits above the old walk, the entry there is a branch (not a leaf),
and the code overwrites it, replacing the original Kilopage mapping by a
Gigapage mapping. -/
theorem map_remap_counterexample :
    resOK (map Sv39 c2pt1 0 0 PageSize.Gigapage 2) = true ∧
    translate Sv39 (resPT (map Sv39 c2pt1 0 0 PageSize.Gigapage 2) PageTable.new) 0
      = .ok (some (0, PageSize.Gigapage, 2)) := ⟨rfl, rfl⟩

theorem map_remap_already_mapped_witness :
    map Sv39 c2pt1 8192 0 PageSize.Kilopage 4
      = .ok (.err .AlreadyMapped c2pt1) :=
  map_remap_already_mapped WF_new (by decide) (by decide) (by decide) (by decide)
    (show map Sv39 PageTable.new 0 0 .Kilopage 2 = .ok (.ok c2pt1 2) from rfl)
    8192 4 .Kilopage (by decide) (by decide)

end NovOS.Page
namespace NovOS.Page
open NovOS

/-- Zeroing the leaf found by the traverse loop makes the loop come up
empty: the re-walk reads the same entries until it hits the zeroed slot
(at the latest, at the position where the leaf was found) and an invalid
entry stops it with `None`. -/
theorem traverseAux_after_zero {pt : PageTable} {v : Nat} {t0 i0 : Nat} :
    ∀ (i tid : Nat), traverseAux pt v i tid = .ok (some (t0, i0)) →
      traverseAux (setEntry pt t0 (vpnF v i0) 0) v i tid = .ok none := by
  intro i
  induction i with
  | zero =>
    intro tid h
    simp only [traverseAux] at h ⊢
    split at h
    · simp at h
    · rename_i heq
      simp only [Except.ok.injEq, Option.some.injEq, Prod.mk.injEq] at h
      obtain ⟨rfl, rfl⟩ := h
      rw [entryAt_setEntry_zero_self, kind_zero]
    · rename_i nx heq
      split at h <;> simp at h
  | succ i ih =>
    intro tid h
    simp only [traverseAux] at h ⊢
    split at h
    · simp at h
    · rename_i heq
      simp only [Except.ok.injEq, Option.some.injEq, Prod.mk.injEq] at h
      obtain ⟨rfl, rfl⟩ := h
      rw [entryAt_setEntry_zero_self, kind_zero]
    · rename_i nx heq
      split at h
      · simp at h
      · rename_i j hda
        by_cases hloc : tid = t0 ∧ vpnF v (i + 1) = vpnF v i0
        · obtain ⟨rfl, hkk⟩ := hloc
          rw [hkk, entryAt_setEntry_zero_self, kind_zero]
        · have hother : entryAt (setEntry pt t0 (vpnF v i0) 0) tid (vpnF v (i + 1))
              = entryAt pt tid (vpnF v (i + 1)) := by
            apply entryAt_setEntry_other
            by_cases h1 : tid = t0
            · right
              intro hc
              exact hloc ⟨h1, hc⟩
            · left
              exact h1
          rw [hother, heq]
          show (match addrTid (setEntry pt t0 (vpnF v i0) 0) nx with
            | none => (Except.error Panic.badDeref : Except Panic (Option (Nat × Nat)))
            | some j => traverseAux (setEntry pt t0 (vpnF v i0) 0) v i j) = .ok none
          rw [addrTid_setEntry, hda]
          exact ih j h

end NovOS.Page
namespace NovOS.Page
open NovOS

/-- C6: whenever `unmap` returns (rather than panicking — see the
counterexample: a Terapage leaf makes the underlying `traverse` hit
`unreachable!()`), the returned flag is `true` exactly when `translate`
found a mapping; `false` leaves the table untouched; and after a `true`
return, `translate` of the same address yields `None`. -/
theorem unmap_correct {M : PagingMode} {pt : PageTable} {v : Nat} {b : Bool}
    {pt1 : PageTable} (h : unmap M pt v = .ok (b, pt1)) :
    (b = true ↔ translate M pt v ≠ .ok none) ∧
    (b = false → pt1 = pt ∧ translate M pt v = .ok none) ∧
    (b = true → translate M pt1 v = .ok none) := by
  unfold unmap at h
  split at h
  · simp at h
  · rename_i hts
    simp only [Except.ok.injEq, Prod.mk.injEq] at h
    obtain ⟨rfl, rfl⟩ := h
    refine ⟨?_, ?_, ?_⟩
    · constructor
      · intro hb
        exact absurd hb (by simp)
      · intro hne
        exfalso
        apply hne
        unfold translate
        rw [hts]
    · intro _
      refine ⟨rfl, ?_⟩
      unfold translate
      rw [hts]
    · intro hb
      exact absurd hb (by simp)
  · rename_i m hts
    simp only [Except.ok.injEq, Prod.mk.injEq] at h
    obtain ⟨rfl, rfl⟩ := h
    have htA : traverseAux pt v (M.LEVELS - 1) 0 = .ok (some (m.tid, m.idx)) := by
      unfold traverse at hts
      split at hts
      · exact absurd hts (by simp)
      · exact absurd hts (by simp)
      · rename_i tid i hA
        split at hts
        all_goals first
          | (simp only [Except.ok.injEq, Option.some.injEq] at hts
             subst hts
             exact hA)
          | exact absurd hts (by simp)
    have htz := traverseAux_after_zero (M.LEVELS - 1) 0 htA
    refine ⟨?_, ?_, ?_⟩
    · constructor
      · intro _ hc
        unfold translate at hc
        rw [hts] at hc
        simp at hc
      · intro _
        rfl
    · intro hb
      exact absurd hb (by simp)
    · intro _
      unfold translate traverse
      rw [htz]

/-- The table produced by mapping a Terapage at `vaddr = 0` on `Sv48`
(a single leaf entry in the root, at level 3). -/
def c6pt : PageTable := resPT (map Sv48 PageTable.new 0 0 PageSize.Terapage 2) PageTable.new

/-- C6 counterexample to the unrestricted claim: on `Sv48` a Terapage map
succeeds, and `unmap` of the mapped address then panics in `traverse`
(`unreachable!()` for a leaf at level 3) instead of returning `true`. -/
theorem unmap_terapage_panics :
    map Sv48 PageTable.new 0 0 PageSize.Terapage 2 = .ok (.ok c6pt 0) ∧
    unmap Sv48 c6pt 0 = .error Panic.unreachableCode := ⟨rfl, rfl⟩

theorem unmap_correct_witness :
    (false = true ↔ translate Sv39 PageTable.new 0 ≠ .ok none) ∧
    (false = false → PageTable.new = PageTable.new ∧
      translate Sv39 PageTable.new 0 = .ok none) ∧
    (false = true → translate Sv39 PageTable.new 0 = .ok none) :=
  unmap_correct (show unmap Sv39 PageTable.new 0 = .ok (false, PageTable.new) from rfl)

end NovOS.Page
namespace NovOS.Page
open NovOS

/-- C7: `map` with a misaligned physical or virtual address rejects with
`UnalignedAddress` and returns the table unchanged (the returned state is
the input `pt` itself; no entry is written and no subtable allocated,
since the check precedes the level walk) — provided the two checks that
run first pass: the size must be supported by the mode and the virtual
address in range, otherwise those errors shadow the alignment error (see
the counterexample). -/
theorem map_unaligned {M : PagingMode} (pt : PageTable) (p v : Nat) (s : PageSize)
    (f : Nat) (hlev : s.vpn_idx < M.LEVELS)
    (haddr : ¬ (M.MAX_ADDRESS ≤ v ∨ v &&& usizeNot M.MAX_ADDRESS ≠ 0))
    (hun : (!(s.is_aligned p) || !(s.is_aligned v)) = true) :
    map M pt p v s f = .ok (.err .UnalignedAddress pt) := by
  unfold map
  rw [if_neg (show ¬ M.LEVELS ≤ s.vpn_idx by omega), if_neg haddr, if_pos hun]

/-- C7 counterexample to the unrestricted claim: `map` of a misaligned
address is not always rejected with `UnalignedAddress` — a page size the
mode does not support is reported as `UnsupportedPageSize` first, even
when the addresses are also misaligned. -/
theorem map_unaligned_counterexample :
    map Sv39 PageTable.new 4096 4096 PageSize.Terapage 2
      = .ok (.err Error.UnsupportedPageSize PageTable.new) ∧
    Error.UnsupportedPageSize ≠ Error.UnalignedAddress :=
  ⟨rfl, fun h => nomatch h⟩

theorem map_unaligned_witness :
    map Sv39 PageTable.new 4096 0 PageSize.Megapage 0
      = .ok (.err Error.UnalignedAddress PageTable.new) :=
  map_unaligned PageTable.new 4096 0 PageSize.Megapage 0 (by decide) (by decide)
    (by decide)

/-- The table produced by a successful Terapage map at `vaddr = 0` on
`Sv48`: one leaf entry in the root at level 3. -/
def c1pt : PageTable := resPT (map Sv48 PageTable.new 0 0 PageSize.Terapage 2) PageTable.new

/-- C1: the round-trip fails on the claim's own quantification. On `Sv48`,
`map` of a Terapage succeeds (writing a level-3 leaf), but `translate` of
the mapped address then panics: `traverse` finds the leaf at level 3 and
its `match idx { 0 | 1 | 2 | _ => unreachable!() }` has no arm for it,
instead of returning `Some((p, s, fl))`. -/
theorem map_translate_terapage_panics :
    map Sv48 PageTable.new 0 0 PageSize.Terapage 2 = .ok (.ok c1pt 0) ∧
    translate Sv48 c1pt 0 = .error Panic.unreachableCode := ⟨rfl, rfl⟩

end NovOS.Page
